import Mathlib

/-
Verification development for the crawl-and-download core in
src/download_files.py.

The Python source is shallowly embedded below.  URLs are represented by
their parsed components (the result of urllib.parse.urlparse on the
absolute, fragment-stripped URLs produced by normalize_link), Python
strings by Lean String (character lists; the character-class predicates
model the ASCII fragment of the Unicode classes used by the source),
the filesystem by the list of existing paths, and the network by oracle
functions supplied to the crawl model.  The crawl loop records every
network operation (page GET, HEAD probe, document GET) and every
frontier dequeue in an explicit event trace so that claims about what
is or is not fetched can be stated directly.
-/

set_option maxRecDepth 4096

/-! ### Python string primitives (ASCII fragment) -/

/-- Python str.startswith(pre) on the character list of a string. -/
def pyStartswith (s pre : String) : Bool :=
  pre.data.isPrefixOf s.data

/-- Python str.endswith(suffix) on the character list of a string. -/
def pyEndswith (s suffix : String) : Bool :=
  suffix.data.isSuffixOf s.data

/-- Python str.lower, ASCII fragment (the paths compared by the source
are ASCII URLs). -/
def pyLower (s : String) : String :=
  ⟨s.data.map Char.toLower⟩

/-! ### URL model and scope policy (src/download_files.py lines 95-119) -/

/-- A parsed absolute URL: the components returned by
urllib.parse.urlparse that the source reads (scheme, netloc, path) plus
the query string, so that distinct crawl identities stay distinct.
Fragments are already stripped by normalize_link before any URL reaches
the functions modelled here. -/
structure Url where
  scheme : String
  netloc : String
  path : String
  query : String
deriving DecidableEq, Repr

/-- Line 95-96: urlparse(url).netloc == urlparse(base).netloc. -/
def is_same_site (url base : Url) : Bool :=
  url.netloc == base.netloc

/-- Lines 98-102: same netloc and up.path.startswith(bp.path). -/
def is_under_base_path (url base : Url) : Bool :=
  url.netloc == base.netloc && pyStartswith url.path base.path

/-- Lines 116-119: urlparse(url).path.lower().endswith(".pdf"). -/
def looks_like_pdf (url : Url) : Bool :=
  pyEndswith (pyLower url.path) ".pdf"

/-- Follows the words of the spec (section 8 and claim C2): the
candidate path extends the base path by whole path segments, where a
path is cut into segments at "/" exactly as Python str.split("/") cuts
it.  This definition exists only to be compared against
is_under_base_path, which is translated from the source. -/
def segmentList (s : String) : List (List Char) :=
  go s.data []
where
  go : List Char → List Char → List (List Char)
    | [], acc => [acc.reverse]
    | '/' :: rest, acc => acc.reverse :: go rest []
    | c :: rest, acc => go rest (c :: acc)

/-- Follows the words of the spec: same network authority and the path
of the candidate starts with the path of the base as a prefix of whole
path segments (so "/a/b" is under "/a" but "/ab" is not). -/
def underBasePathSpec (url base : Url) : Bool :=
  url.netloc == base.netloc && (segmentList base.path).isPrefixOf (segmentList url.path)

/-! ### Filename sanitization (lines 78-82) -/

/-- ASCII fragment of the regex class \w. -/
def pyWordChar (c : Char) : Bool :=
  c.isAlphanum || c = '_'

/-- ASCII fragment of the regex class \s: space, tab, line feed,
vertical tab, form feed, carriage return, and the file, group, record
and unit separators (codes 0x1c-0x1f), which the Python class matches
as well. -/
def pySpaceChar (c : Char) : Bool :=
  c = ' ' || c = '\t' || c = '\n' || c = '\x0b' || c = '\x0c' || c = '\r' ||
  c = '\x1c' || c = '\x1d' || c = '\x1e' || c = '\x1f'

/-- The characters kept by the regex [^\w\-.()+\s] in sanitize_filename
(line 80): everything in the class is preserved, everything else is
replaced by an underscore. -/
def pyAllowChar (c : Char) : Bool :=
  pyWordChar c || c = '-' || c = '.' || c = '(' || c = ')' || c = '+' || pySpaceChar c

/-- The per-character substitution performed by re.sub on line 80. -/
def substChar (c : Char) : Char :=
  if pyAllowChar c then c else '_'

/-- Lines 78-82: re.sub(r"[^\w\-.()+\s]", "_", name), then
name[-180:] if len(name) > 180 else name. -/
def sanitize_filename (name : String) : String :=
  let s : List Char := name.data.map substChar
  if s.length > 180 then ⟨s.drop (s.length - 180)⟩ else ⟨s⟩

/-- Follows the words of claim C9: same allow-list except that only the
space character (not every whitespace character) is allowed.  This
definition exists only to be compared against sanitize_filename, which
is translated from the source. -/
def sanitizeSpecC9 (name : String) : String :=
  let s : List Char := name.data.map fun c =>
    if pyWordChar c || c = '-' || c = '.' || c = '(' || c = ')' || c = '+' || c = ' '
    then c else '_'
  if s.length > 180 then ⟨s.drop (s.length - 180)⟩ else ⟨s⟩

/-! ### Collision-free target paths (lines 84-93, 143-148) -/

/-- Decimal digit character, as produced by Python str(int). -/
def decDigitChar (d : Nat) : Char :=
  match d with
  | 0 => '0' | 1 => '1' | 2 => '2' | 3 => '3' | 4 => '4'
  | 5 => '5' | 6 => '6' | 7 => '7' | 8 => '8' | _ => '9'

/-- Big-endian decimal digits of n (fuel-structured so that it both
computes in the kernel and supports induction; fuel n suffices since
n / 10 decreases). -/
def decDigitsAux : Nat → Nat → List Char
  | 0, _ => []
  | fuel + 1, n => if n = 0 then [] else decDigitsAux fuel (n / 10) ++ [decDigitChar (n % 10)]

/-- Python str(i) for a non-negative int: standard decimal notation. -/
def pyIntStr (n : Nat) : String :=
  if n = 0 then "0" else ⟨decDigitsAux n n⟩

/-- The candidate built on line 90: f-string base ++ " (" ++ str(i) ++ ")" ++ ext. -/
def candidateName (base ext : String) (i : Nat) : String :=
  base ++ " (" ++ pyIntStr i ++ ")" ++ ext

/-- os.path.splitext for POSIX paths: the extension starts at the last
period of the final path component, unless every character of that
component before the period is itself a period (e.g. ".bashrc" has no
extension).  Returns (root, ext) with root ++ ext = path. -/
def splitext (p : String) : String × String :=
  let r := p.data.reverse
  let rbase := r.takeWhile (fun c => c ≠ '/')
  let rdir := r.dropWhile (fun c => c ≠ '/')
  match rbase.findIdx? (fun c => c = '.') with
  | none => (p, "")
  | some k =>
    if (rbase.drop (k + 1)).any (fun c => c ≠ '.') then
      (⟨rdir.reverse ++ (rbase.drop (k + 1)).reverse⟩, ⟨(rbase.take (k + 1)).reverse⟩)
    else (p, "")

/-- The while loop of ensure_unique_path (lines 88-93), tried from
index i with explicit fuel.  The model of the filesystem is the list fs
of paths that exist; os.path.exists(p) is p ∈ fs. -/
def ensureUniqueAux (fs : List String) (base ext : String) : Nat → Nat → String
  | 0, i => candidateName base ext i
  | fuel + 1, i =>
    let c := candidateName base ext i
    if c ∈ fs then ensureUniqueAux fs base ext fuel (i + 1) else c

/-- Lines 84-93: return path if it does not exist, otherwise try
"base (1)ext", "base (2)ext", ... until a free name is found.  Fuel
fs.length + 1 is provably sufficient (see the pigeonhole theorems
below), so this total function agrees with the unbounded Python loop. -/
def ensure_unique_path (fs : List String) (path : String) : String :=
  if path ∈ fs then
    ensureUniqueAux fs (splitext path).1 (splitext path).2 (fs.length + 1) 1
  else path

/-- os.path.basename for POSIX paths: everything after the last "/". -/
def pyBasename (p : String) : String :=
  ⟨(p.data.reverse.takeWhile (fun c => c ≠ '/')).reverse⟩

/-- Lines 143-148 of download_pdf: the local target path chosen for a
document URL, given the list fs of already-existing paths.
os.path.join(out_dir, fname) is modelled as out_dir ++ "/" ++ fname
(out_dir carries no trailing slash and fname is relative, which holds
for every name produced by sanitize_filename after an out_dir from the
command line). -/
def download_target (fs : List String) (out_dir : String) (url : Url) : String :=
  let f := pyBasename url.path
  let fname := sanitize_filename (if f = "" then "document.pdf" else f)
  ensure_unique_path fs (out_dir ++ "/" ++ fname)

/-! ### Exclusion policy (robots) model (lines 52-76)

load_robots delegates to urllib.robotparser.RobotFileParser, so the
relevant stdlib behaviour is embedded here, faithful to CPython:
RobotFileParser starts with disallow_all = False, allow_all = False and
last_checked = 0; read() catches only HTTPError (401/403 set
disallow_all, other 4xx set allow_all, 5xx set nothing); any other
exception (URLError: DNS failure, refused connection, timeout)
propagates out of read() and is swallowed by the bare except in
load_robots (lines 56-62), leaving the parser in its initial state; a
successful fetch parses the rules and sets last_checked.  can_fetch
returns False when disallow_all is set, True when allow_all is set,
False when the file was never successfully checked, and otherwise
consults the parsed rules; crawl_delay returns None unless the file was
successfully checked. -/

/-- Outcome of fetching robots.txt.  A successful parse is abstracted
by the allow function and optional crawl-delay the rules denote. -/
inductive RobotsFetch where
  | ok (ruleAllows : Url → Bool) (ruleDelay : Option Nat)
  | httpError (code : Nat)
  | connError

/-- State of urllib.robotparser.RobotFileParser as far as can_fetch and
crawl_delay read it. -/
structure RobotFileParser where
  disallow_all : Bool
  allow_all : Bool
  last_checked : Bool
  ruleAllows : Url → Bool
  ruleDelay : Option Nat

/-- The freshly constructed parser (RobotFileParser.__init__). -/
def initParser : RobotFileParser :=
  { disallow_all := false, allow_all := false, last_checked := false,
    ruleAllows := fun _ => false, ruleDelay := none }

/-- Net effect on the parser of rp.read() under the given fetch
outcome, as run inside the try of load_robots: on connError the
exception escapes read() and is caught by load_robots, so the parser is
returned unchanged. -/
def robotsRead (outcome : RobotsFetch) (rp : RobotFileParser) : RobotFileParser :=
  match outcome with
  | .ok allows delay =>
      { rp with last_checked := true, ruleAllows := allows, ruleDelay := delay }
  | .httpError code =>
      if code = 401 ∨ code = 403 then { rp with disallow_all := true }
      else if 400 ≤ code ∧ code < 500 then { rp with allow_all := true }
      else rp
  | .connError => rp

/-- Lines 52-63: build a parser, attempt to read robots.txt, swallow
any exception, return the parser. -/
def load_robots (outcome : RobotsFetch) : RobotFileParser :=
  robotsRead outcome initParser

/-- CPython RobotFileParser.can_fetch. -/
def can_fetch (rp : RobotFileParser) (u : Url) : Bool :=
  if rp.disallow_all then false
  else if rp.allow_all then true
  else if !rp.last_checked then false
  else rp.ruleAllows u

/-- Lines 65-69: rp.can_fetch never raises here, so the permissive
except branch is dead and the call is can_fetch itself. -/
def allowed_by_robots (rp : RobotFileParser) (u : Url) : Bool :=
  can_fetch rp u

/-- CPython RobotFileParser.crawl_delay: None unless the file was
successfully checked, else the delay the rules denote. -/
def rp_crawl_delay (rp : RobotFileParser) : Option Nat :=
  if !rp.last_checked then none else rp.ruleDelay

/-- Lines 71-76: crawl delay defaulted to 0 when absent. -/
def robots_crawl_delay (rp : RobotFileParser) : Nat :=
  (rp_crawl_delay rp).getD 0

/-- Line 169: the enforced inter-request delay. -/
def enforced_delay (delay : Nat) (rp : RobotFileParser) : Nat :=
  max delay (robots_crawl_delay rp)

/-! ### Crawl scheduler model (crawl_and_download, lines 166-235)

The network is abstracted by oracles: pages gives the deduplicated
extracted links of a page (extract_links over the fetched HTML), in the
iteration order of the Python set, or none when fetch_html raises;
headPdf gives the result of the HEAD content-type probe; robots gives
allowed_by_robots for the loaded policy; downloadOk tells whether the
streaming document GET succeeds.  Every network operation and every
frontier dequeue is recorded as an event, in program order. -/

/-- One observable action of the crawl loop. -/
inductive Event where
  | dequeue (u : Url) (d : Nat)
  | fetchPage (u : Url)
  | probe (u : Url)
  | download (u : Url)
deriving DecidableEq, Repr

/-- The crawl environment. -/
structure World where
  pages : Url → Option (List Url)
  headPdf : Url → Bool
  robots : Url → Bool
  downloadOk : Url → Bool

/-- The mutable state of crawl_and_download (lines 174-178) plus the
event trace. -/
structure CrawlState where
  seen : List Url
  queued : List (Url × Nat)
  foundPdfs : List Url
  downloaded : Nat
  checkedLinks : Nat
  events : List Event
deriving Repr

/-- Line 175: queued = deque([(start, 0)]), all other state empty. -/
def initState (start : Url) : CrawlState :=
  { seen := [], queued := [(start, 0)], foundPdfs := [], downloaded := 0,
    checkedLinks := 0, events := [] }

/-- The probe performed by the short-circuit disjunction on line 207:
head_is_pdf runs only when looks_like_pdf is false. -/
def probeEvents (link : Url) : List Event :=
  if looks_like_pdf link then [] else [Event.probe link]

/-- The body of the for-loop over extracted links (lines 203-225).
First the link counter and, when the extension heuristic fails, the
HEAD probe (line 207).  A document candidate is gated by robots (line
208) and by membership in found_pdfs (line 211) before the download GET
(line 214); the downloaded counter advances only when the GET succeeds.
A non-document link is enqueued at depth + 1 when depth < max_depth,
the link is on the same site, the path scope allows it, and it was not
already visited (lines 221-225). -/
def processLink (w : World) (maxDepth : Nat) (start : Url) (samePathOnly : Bool)
    (depth : Nat) (s : CrawlState) (link : Url) : CrawlState :=
  if looks_like_pdf link || w.headPdf link then
    if w.robots link then
      if link ∈ s.foundPdfs then
        { s with checkedLinks := s.checkedLinks + 1,
                 events := s.events ++ probeEvents link }
      else
        { s with checkedLinks := s.checkedLinks + 1,
                 foundPdfs := s.foundPdfs ++ [link],
                 downloaded := s.downloaded + (if w.downloadOk link then 1 else 0),
                 events := s.events ++ probeEvents link ++ [Event.download link] }
    else
      { s with checkedLinks := s.checkedLinks + 1,
               events := s.events ++ probeEvents link }
  else
    if depth < maxDepth then
      if is_same_site link start && (!samePathOnly || is_under_base_path link start) then
        if link ∈ s.seen then
          { s with checkedLinks := s.checkedLinks + 1,
                   events := s.events ++ probeEvents link }
        else
          { s with checkedLinks := s.checkedLinks + 1,
                   queued := s.queued ++ [(link, depth + 1)],
                   events := s.events ++ probeEvents link }
      else
        { s with checkedLinks := s.checkedLinks + 1,
                 events := s.events ++ probeEvents link }
    else
      { s with checkedLinks := s.checkedLinks + 1,
               events := s.events ++ probeEvents link }

/-- One iteration of the while loop (lines 180-225): pop the left end
of the deque; skip if already seen; mark seen; skip if off-site, out of
the path scope (when same_path_only), or disallowed by robots; then
fetch the page (a GET in both outcomes) and, on success, run the link
loop over the extracted links. -/
def crawlStep (w : World) (maxDepth : Nat) (start : Url) (samePathOnly : Bool)
    (s : CrawlState) : CrawlState :=
  match s.queued with
  | [] => s
  | (url, depth) :: rest =>
    let s1 : CrawlState := { s with queued := rest,
                                    events := s.events ++ [Event.dequeue url depth] }
    if url ∈ s1.seen then s1
    else
      let s2 : CrawlState := { s1 with seen := s1.seen ++ [url] }
      if !(is_same_site url start) then s2
      else if samePathOnly && !(is_under_base_path url start) then s2
      else if !(w.robots url) then s2
      else
        let s3 : CrawlState := { s2 with events := s2.events ++ [Event.fetchPage url] }
        match w.pages url with
        | none => s3
        | some links => links.foldl (processLink w maxDepth start samePathOnly depth) s3

/-- The while loop with explicit fuel: stops when the frontier is empty
or the fuel runs out.  Every state reachable by the Python loop is
crawlRun fuel (initState start) for some fuel. -/
def crawlRun (w : World) (maxDepth : Nat) (start : Url) (samePathOnly : Bool) :
    Nat → CrawlState → CrawlState
  | 0, s => s
  | fuel + 1, s =>
    match s.queued with
    | [] => s
    | _ :: _ => crawlRun w maxDepth start samePathOnly fuel
        (crawlStep w maxDepth start samePathOnly s)

/-- crawl_and_download, run from the initial frontier.  The summary of
lines 227-231 reads seen.length (pages visited), checkedLinks,
foundPdfs.length (documents found) and downloaded off the final state. -/
def crawl_and_download (w : World) (start : Url) (maxDepth : Nat) (samePathOnly : Bool)
    (fuel : Nat) : CrawlState :=
  crawlRun w maxDepth start samePathOnly fuel (initState start)

/-- Occurrence count of an event in a trace. -/
def countE (e : Event) : List Event → Nat
  | [] => 0
  | x :: xs => (if x = e then 1 else 0) + countE e xs

/-! ### Concrete URLs and worlds used by counterexamples and witnesses -/

/-- Seed page of the end-to-end scenario: https://site/ref/ . -/
def uSeed : Url := ⟨"https", "site", "/ref/", ""⟩

/-- In-scope second page https://site/ref/page2 . -/
def uPage2 : Url := ⟨"https", "site", "/ref/page2", ""⟩

/-- In-scope document https://site/ref/a.pdf . -/
def uDocA : Url := ⟨"https", "site", "/ref/a.pdf", ""⟩

/-- In-scope document https://site/ref/b.pdf . -/
def uDocB : Url := ⟨"https", "site", "/ref/b.pdf", ""⟩

/-- External-host page link https://other/elsewhere . -/
def uExt : Url := ⟨"https", "other", "/elsewhere", ""⟩

/-- External-host document link https://other/x.pdf . -/
def uExtPdf : Url := ⟨"https", "other", "/x.pdf", ""⟩

/-- End-to-end scenario of the spec, section 8, plus an external
document link: the seed links a document, a second page, an external
page and an external document; the second page links one more
document. -/
def e2ePages : Url → Option (List Url) := fun u =>
  if u = uSeed then some [uDocA, uPage2, uExt, uExtPdf]
  else if u = uPage2 then some [uDocB]
  else none

/-- End-to-end world: every probe says not-a-document, robots allows
everything, downloads succeed. -/
def e2eWorld : World :=
  { pages := e2ePages, headPdf := fun _ => false,
    robots := fun _ => true, downloadOk := fun _ => true }

/-- World in which robots disallows the second page. -/
def deniedWorld : World :=
  { pages := fun u => if u = uSeed then some [uPage2]
                      else if u = uPage2 then some [] else none,
    headPdf := fun _ => false,
    robots := fun u => decide (u ≠ uPage2),
    downloadOk := fun _ => true }

/-- Two-page cycle: the seed links page2 and page2 links the seed. -/
def cycleWorld : World :=
  { pages := fun u => if u = uSeed then some [uPage2]
                      else if u = uPage2 then some [uSeed] else none,
    headPdf := fun _ => false,
    robots := fun _ => true, downloadOk := fun _ => true }

/-- In-scope page https://site/ref/A . -/
def uA : Url := ⟨"https", "site", "/ref/A", ""⟩

/-- In-scope page https://site/ref/B . -/
def uB : Url := ⟨"https", "site", "/ref/B", ""⟩

/-- In-scope page https://site/ref/C . -/
def uC : Url := ⟨"https", "site", "/ref/C", ""⟩

/-- Diamond graph: the seed links A and B, and both link C, so C is
enqueued twice before its first dequeue. -/
def diamondWorld : World :=
  { pages := fun u => if u = uSeed then some [uA, uB]
                      else if u = uA then some [uC]
                      else if u = uB then some [uC]
                      else if u = uC then some [] else none,
    headPdf := fun _ => false,
    robots := fun _ => true, downloadOk := fun _ => true }

/-- The end-to-end world driven by the policy that results from a
failed robots.txt fetch. -/
def failClosedWorld : World :=
  { e2eWorld with robots := fun u => allowed_by_robots (load_robots RobotsFetch.connError) u }

/-- Numeric value of a decimal digit character (proof tool for the
roundtrip below). -/
def decVal (c : Char) : Nat := c.toNat - 48

/-- Decimal parser, inverse of decDigitsAux (proof tool). -/
def parseDec (l : List Char) : Nat :=
  l.foldl (fun a c => a * 10 + decVal c) 0

/-! ### String and list lemmas -/

theorem strData_append (a b : String) : (a ++ b).data = a.data ++ b.data := by
  cases a; cases b; rfl

theorem strExt {a b : String} (h : a.data = b.data) : a = b := by
  cases a; cases b; exact congrArg String.mk h

theorem isPrefixOf_iff_exists (p l : List Char) :
    p.isPrefixOf l = true ↔ ∃ t, l = p ++ t := by
  induction p generalizing l with
  | nil => simp [List.isPrefixOf]
  | cons a as ih =>
    cases l with
    | nil => simp [List.isPrefixOf]
    | cons b bs =>
      simp only [List.isPrefixOf, Bool.and_eq_true, beq_iff_eq, ih, List.cons_append,
        List.cons.injEq]
      constructor
      · rintro ⟨hab, t, ht⟩; exact ⟨t, hab.symm, ht⟩
      · rintro ⟨t, hab, ht⟩; exact ⟨hab.symm, t, ht⟩

theorem pyStartswith_iff (s pre : String) :
    pyStartswith s pre = true ↔ ∃ t : String, s = pre ++ t := by
  unfold pyStartswith
  rw [isPrefixOf_iff_exists]
  constructor
  · rintro ⟨t, ht⟩
    exact ⟨⟨t⟩, strExt (by rw [strData_append]; exact ht)⟩
  · rintro ⟨t, ht⟩
    exact ⟨t.data, by rw [ht, strData_append]⟩

/-! ### Decimal printing is injective, so collision candidates are distinct -/

theorem decVal_decDigitChar (d : Nat) (h : d < 10) : decVal (decDigitChar d) = d := by
  interval_cases d <;> rfl

theorem foldl_parse_append (l : List Char) (x : Char) (a : Nat) :
    (l ++ [x]).foldl (fun a c => a * 10 + decVal c) a =
      (l.foldl (fun a c => a * 10 + decVal c) a) * 10 + decVal x := by
  simp [List.foldl_append]

theorem parse_decDigitsAux (fuel : Nat) :
    ∀ n, n ≤ fuel → parseDec (decDigitsAux fuel n) = n := by
  induction fuel with
  | zero => intro n hn; interval_cases n; rfl
  | succ f ih =>
    intro n hn
    by_cases h0 : n = 0
    · subst h0; simp [decDigitsAux, parseDec]
    · have hdiv : n / 10 ≤ f := by
        have : n / 10 < n := Nat.div_lt_self (Nat.pos_of_ne_zero h0) (by omega)
        omega
      have hmod : n % 10 < 10 := Nat.mod_lt _ (by omega)
      simp only [decDigitsAux, h0, if_false, parseDec] at *
      rw [foldl_parse_append]
      have := ih (n / 10) hdiv
      unfold parseDec at this
      rw [this, decVal_decDigitChar _ hmod]
      omega

theorem parse_pyIntStr (n : Nat) : parseDec (pyIntStr n).data = n := by
  unfold pyIntStr
  by_cases h0 : n = 0
  · subst h0; rfl
  · simp only [h0, if_false]
    exact parse_decDigitsAux n n le_rfl

theorem pyIntStr_inj {a b : Nat} (h : pyIntStr a = pyIntStr b) : a = b := by
  have := congrArg (fun s => parseDec s.data) h
  simpa [parse_pyIntStr] using this

theorem candidateName_inj (base ext : String) {i j : Nat}
    (h : candidateName base ext i = candidateName base ext j) : i = j := by
  apply pyIntStr_inj
  unfold candidateName at h
  have hd := congrArg String.data h
  simp only [strData_append, List.append_assoc] at hd
  have h1 := List.append_cancel_left hd
  have h2 := List.append_cancel_left h1
  have h3 := List.append_cancel_right (List.append_assoc _ _ _ ▸
    (List.append_assoc _ _ _ ▸ h2))
  exact strExt h3

/-! ### ensure_unique_path finds the least free disambiguator -/

theorem exists_free_candidate (fs : List String) (base ext : String) (i : Nat) :
    ∃ k, k < fs.length + 1 ∧ candidateName base ext (i + k) ∉ fs := by
  by_contra hcon
  push_neg at hcon
  have hinj : Function.Injective (fun k : Nat => candidateName base ext (i + k)) := by
    intro a b hab
    have := candidateName_inj base ext hab
    omega
  have hnd : ((List.range (fs.length + 1)).map
      (fun k => candidateName base ext (i + k))).Nodup :=
    (List.nodup_range _).map hinj
  have hsub : ((List.range (fs.length + 1)).map
      (fun k => candidateName base ext (i + k))) ⊆ fs := by
    intro x hx
    obtain ⟨k, hk, rfl⟩ := List.mem_map.mp hx
    exact hcon k (List.mem_range.mp hk)
  have := (hnd.subperm hsub).length_le
  simp at this

theorem ensureUniqueAux_spec (fs : List String) (base ext : String) :
    ∀ fuel i, (∃ k, k < fuel ∧ candidateName base ext (i + k) ∉ fs) →
      ensureUniqueAux fs base ext fuel i ∉ fs ∧
      ∃ N, i ≤ N ∧ ensureUniqueAux fs base ext fuel i = candidateName base ext N ∧
        ∀ M, i ≤ M → M < N → candidateName base ext M ∈ fs := by
  intro fuel
  induction fuel with
  | zero => rintro i ⟨k, hk, -⟩; omega
  | succ f ih =>
    rintro i ⟨k, hk, hfree⟩
    simp only [ensureUniqueAux]
    by_cases hc : candidateName base ext i ∈ fs
    · rw [if_pos hc]
      have hkpos : k ≠ 0 := by
        rintro rfl
        simp at hfree
        exact hfree hc
      have hrec : ∃ k', k' < f ∧ candidateName base ext (i + 1 + k') ∉ fs := by
        refine ⟨k - 1, by omega, ?_⟩
        have : i + 1 + (k - 1) = i + k := by omega
        rw [this]; exact hfree
      obtain ⟨hnot, N, hN1, hEq, hmin⟩ := ih (i + 1) hrec
      refine ⟨hnot, N, by omega, hEq, ?_⟩
      intro M hM1 hM2
      by_cases hMi : M = i
      · subst hMi; exact hc
      · exact hmin M (by omega) hM2
    · rw [if_neg hc]
      exact ⟨hc, i, le_rfl, rfl, fun M h1 h2 => absurd (lt_of_lt_of_le h2 h1) (lt_irrefl M)⟩

/-- C8: for every filesystem and target path, ensure_unique_path never
returns an existing path; when the target exists it returns the
candidate "base (N)ext" for the least N with 1 ≤ N whose path is free;
in particular a second download of a document that normalizes to an
already-used filename is saved as "... (1)" before the extension. -/
theorem ensure_unique_path_min_free :
    (∀ (fs : List String) (path : String), ensure_unique_path fs path ∉ fs) ∧
    (∀ (fs : List String) (path : String), path ∈ fs →
      ∃ N, 1 ≤ N ∧
        ensure_unique_path fs path = candidateName (splitext path).1 (splitext path).2 N ∧
        ∀ M, 1 ≤ M → M < N →
          candidateName (splitext path).1 (splitext path).2 M ∈ fs) ∧
    download_target ["pdfs/a.pdf"] "pdfs" uDocA = "pdfs/a (1).pdf" ∧
    download_target [] "pdfs" uDocA = "pdfs/a.pdf" := by
  have key : ∀ (fs : List String) (path : String), path ∈ fs →
      ensure_unique_path fs path ∉ fs ∧
      ∃ N, 1 ≤ N ∧
        ensure_unique_path fs path = candidateName (splitext path).1 (splitext path).2 N ∧
        ∀ M, 1 ≤ M → M < N →
          candidateName (splitext path).1 (splitext path).2 M ∈ fs := by
    intro fs path hmem
    have hex := exists_free_candidate fs (splitext path).1 (splitext path).2 1
    obtain ⟨hnot, N, hN1, hEq, hmin⟩ :=
      ensureUniqueAux_spec fs (splitext path).1 (splitext path).2 (fs.length + 1) 1 hex
    unfold ensure_unique_path
    rw [if_pos hmem]
    exact ⟨hnot, N, hN1, hEq, fun M h1 h2 => hmin M h1 h2⟩
  refine ⟨?_, fun fs path h => (key fs path h).2, by decide, by decide⟩
  intro fs path
  by_cases hmem : path ∈ fs
  · exact (key fs path hmem).1
  · unfold ensure_unique_path
    rw [if_neg hmem]
    exact hmem

/-- Witness for ensure_unique_path_min_free at a concrete collision:
the file "a.pdf" exists, so the chosen name is the N = 1 candidate. -/
theorem ensure_unique_path_min_free_witness :
    ("a.pdf" ∈ ["a.pdf"]) ∧
    (∃ N, 1 ≤ N ∧
      ensure_unique_path ["a.pdf"] "a.pdf" =
        candidateName (splitext "a.pdf").1 (splitext "a.pdf").2 N ∧
      ∀ M, 1 ≤ M → M < N →
        candidateName (splitext "a.pdf").1 (splitext "a.pdf").2 M ∈ ["a.pdf"]) :=
  ⟨by decide, ensure_unique_path_min_free.2.1 ["a.pdf"] "a.pdf" (by decide)⟩

/-- C2 counterexample: the source accepts path "/ab" under base path
"/a" (plain string prefix), while the segment-prefix reading of the
claim rejects it, so the biconditional stated by the claim fails. -/
theorem under_base_path_segment_cex :
    is_under_base_path ⟨"https", "h", "/ab", ""⟩ ⟨"https", "h", "/a", ""⟩ = true ∧
    underBasePathSpec ⟨"https", "h", "/ab", ""⟩ ⟨"https", "h", "/a", ""⟩ = false := by
  decide

/-- C2 amended: is_under_base_path url base is true exactly when the
two URLs have the same network authority and the raw path string of url
extends the raw path string of base (a plain string prefix, with no
segment-boundary requirement). -/
theorem under_base_path_string_prefix (u b : Url) :
    is_under_base_path u b = true ↔
      u.netloc = b.netloc ∧ ∃ t : String, u.path = b.path ++ t := by
  unfold is_under_base_path
  rw [Bool.and_eq_true, beq_iff_eq, pyStartswith_iff]

/-- C9 counterexample: a tab character is outside the allow-list that
the claim states (which admits only the space character as whitespace),
yet sanitize_filename preserves it, because the regex class \s of the
source matches every whitespace character. -/
theorem sanitize_tab_cex :
    sanitize_filename "a\tb" = "a\tb" ∧ sanitizeSpecC9 "a\tb" = "a_b" ∧
    ("a\tb" : String) ≠ "a_b" := by
  decide

/-- C9 amended: sanitize_filename substitutes, character by character,
an underscore for every character outside the class of word characters,
hyphen, period, parentheses, plus, and whitespace (in ASCII: space,
tab, line feed, vertical tab, form feed, carriage return, and the
separator characters 0x1c-0x1f), keeps allow-listed characters
unchanged, and keeps only the last 180 characters of the substituted
string when it is longer than 180. -/
theorem sanitize_filename_charwise :
    (∀ name : String,
      sanitize_filename name = ⟨(name.data.map substChar).drop (name.data.length - 180)⟩) ∧
    (∀ name : String, (sanitize_filename name).data.length = min name.data.length 180) ∧
    (∀ c, pyAllowChar c = true → substChar c = c) ∧
    (∀ c, pyAllowChar c = false → substChar c = '_') ∧
    sanitize_filename "a\tb" = "a\tb" ∧ sanitize_filename "a\x1cb" = "a\x1cb" ∧
    sanitize_filename "a?b" = "a_b" := by
  have hmain : ∀ name : String,
      sanitize_filename name = ⟨(name.data.map substChar).drop (name.data.length - 180)⟩ := by
    intro name
    unfold sanitize_filename
    by_cases h : (name.data.map substChar).length > 180
    · rw [if_pos h]
      simp [List.length_map]
    · rw [if_neg h]
      simp only [List.length_map] at h
      have : name.data.length - 180 = 0 := by omega
      rw [this, List.drop_zero]
  refine ⟨hmain, ?_, ?_, ?_, by decide, by decide, by decide⟩
  · intro name
    rw [hmain name]
    simp only [List.length_drop, List.length_map]
    omega
  · intro c h; unfold substChar; rw [if_pos h]
  · intro c h; unfold substChar; rw [if_neg (by simp [h])]

/-- C6: when the robots.txt fetch fails with a connection-level error
(or an HTTP 5xx), the parser is left in its never-checked initial
state, in which can_fetch denies every URL.  The crawl therefore skips
every page including the seed: the policy fails closed, contradicting
both the claim and the permissive intent stated in the source comment
on lines 60-61.  The crawl-delay contribution is 0 as the claim says. -/
theorem robots_load_failure_fail_closed :
    (∀ u : Url, allowed_by_robots (load_robots RobotsFetch.connError) u = false) ∧
    (∀ u : Url, allowed_by_robots (load_robots (RobotsFetch.httpError 500)) u = false) ∧
    robots_crawl_delay (load_robots RobotsFetch.connError) = 0 ∧
    (crawl_and_download failClosedWorld uSeed 2 true 10).events = [Event.dequeue uSeed 0] ∧
    (crawl_and_download failClosedWorld uSeed 2 true 10).foundPdfs = [] := by
  refine ⟨fun u => rfl, fun u => ?_, rfl, by decide, by decide⟩
  unfold allowed_by_robots can_fetch load_robots robotsRead initParser
  norm_num

/-! ### Trace-counting lemmas -/

theorem countE_nil (e : Event) : countE e [] = 0 := rfl

theorem countE_append (e : Event) (l₁ l₂ : List Event) :
    countE e (l₁ ++ l₂) = countE e l₁ + countE e l₂ := by
  induction l₁ with
  | nil => simp [countE]
  | cons x xs ih => simp [countE, ih]; omega

theorem countE_eq_zero {e : Event} {l : List Event} :
    countE e l = 0 ↔ e ∉ l := by
  induction l with
  | nil => simp [countE]
  | cons x xs ih =>
    simp only [countE, List.mem_cons]
    constructor
    · intro h
      rintro (rfl | hm)
      · simp at h
      · exact (ih.mp (by omega)) hm
    · intro h
      have hx : ¬x = e := fun hxe => h (Or.inl hxe.symm)
      rw [if_neg hx, ih.mpr (fun hm => h (Or.inr hm))]

theorem mem_of_countE_ne_zero {e : Event} {l : List Event}
    (h : countE e l ≠ 0) : e ∈ l := by
  by_contra hm
  exact h (countE_eq_zero.mpr hm)

theorem countE_probe_fetch (u link : Url) :
    countE (Event.fetchPage u) (probeEvents link) = 0 := by
  unfold probeEvents; split <;> simp [countE]

theorem countE_probe_download (u link : Url) :
    countE (Event.download u) (probeEvents link) = 0 := by
  unfold probeEvents; split <;> simp [countE]

theorem not_fetch_mem_probe (u link : Url) :
    Event.fetchPage u ∉ probeEvents link :=
  countE_eq_zero.mp (countE_probe_fetch u link)

theorem not_download_mem_probe (u link : Url) :
    Event.download u ∉ probeEvents link :=
  countE_eq_zero.mp (countE_probe_download u link)

/-! ### The crawl-loop invariant -/

/-- Invariant of every state of the crawl loop: a page GET happens at
most once per URL and only for URLs already in the visited set that
passed the scope and robots gates; a document GET happens at most once
per URL, only for URLs in found_pdfs, which in turn passed the robots
gate; every frontier entry is either the seed at depth 0 or was
enqueued at some depth between 1 and max_depth after the page-candidate
scope checks; every visited URL is the seed or passed those checks at a
positive depth. -/
structure CrawlInv (w : World) (maxDepth : Nat) (start : Url) (samePathOnly : Bool)
    (s : CrawlState) : Prop where
  fetch_le_one : ∀ u, countE (Event.fetchPage u) s.events ≤ 1
  fetch_unseen : ∀ u, u ∉ s.seen → countE (Event.fetchPage u) s.events = 0
  fetch_scope : ∀ u, Event.fetchPage u ∈ s.events →
    is_same_site u start = true ∧
    (samePathOnly = true → is_under_base_path u start = true) ∧
    w.robots u = true
  dl_le_one : ∀ u, countE (Event.download u) s.events ≤ 1
  dl_unfound : ∀ u, u ∉ s.foundPdfs → countE (Event.download u) s.events = 0
  found_robots : ∀ u, u ∈ s.foundPdfs → w.robots u = true
  queued_ok : ∀ p ∈ s.queued, (p.1 = start ∧ p.2 = 0) ∨
    (1 ≤ p.2 ∧ p.2 ≤ maxDepth ∧ is_same_site p.1 start = true ∧
     (samePathOnly = true → is_under_base_path p.1 start = true))
  seen_ok : ∀ u ∈ s.seen, u = start ∨
    (1 ≤ maxDepth ∧ is_same_site u start = true ∧
     (samePathOnly = true → is_under_base_path u start = true))

/-- States that differ from an invariant state only by the link
counter, by a shrunken frontier, and by appended events that are
neither page GETs nor document GETs, satisfy the invariant. -/
theorem crawlInv_parts (w : World) (maxDepth : Nat) (start : Url) (samePathOnly : Bool)
    (s s' : CrawlState) (E : List Event)
    (hE : ∀ u : Url, Event.fetchPage u ∉ E ∧ Event.download u ∉ E)
    (hseen : s'.seen = s.seen)
    (hq : ∀ p ∈ s'.queued, p ∈ s.queued)
    (hf : s'.foundPdfs = s.foundPdfs)
    (hev : s'.events = s.events ++ E)
    (h : CrawlInv w maxDepth start samePathOnly s) :
    CrawlInv w maxDepth start samePathOnly s' := by
  have hcf : ∀ u, countE (Event.fetchPage u) E = 0 := fun u => countE_eq_zero.mpr (hE u).1
  have hcd : ∀ u, countE (Event.download u) E = 0 := fun u => countE_eq_zero.mpr (hE u).2
  constructor
  · intro u; rw [hev, countE_append, hcf]; simpa using h.fetch_le_one u
  · intro u hu; rw [hev, countE_append, hcf]; rw [hseen] at hu
    simpa using h.fetch_unseen u hu
  · intro u hu
    rw [hev] at hu
    rcases List.mem_append.mp hu with hm | hm
    · exact h.fetch_scope u hm
    · exact absurd hm (hE u).1
  · intro u; rw [hev, countE_append, hcd]; simpa using h.dl_le_one u
  · intro u hu; rw [hev, countE_append, hcd]; rw [hf] at hu
    simpa using h.dl_unfound u hu
  · intro u hu; rw [hf] at hu; exact h.found_robots u hu
  · intro p hp; exact h.queued_ok p (hq p hp)
  · intro u hu; rw [hseen] at hu; exact h.seen_ok u hu

/-- processLink preserves the invariant. -/
theorem crawlInv_processLink (w : World) (maxDepth : Nat) (start : Url)
    (samePathOnly : Bool) (depth : Nat) (s : CrawlState) (link : Url)
    (h : CrawlInv w maxDepth start samePathOnly s) :
    CrawlInv w maxDepth start samePathOnly
      (processLink w maxDepth start samePathOnly depth s link) := by
  have hprobe : ∀ u : Url,
      Event.fetchPage u ∉ probeEvents link ∧ Event.download u ∉ probeEvents link :=
    fun u => ⟨not_fetch_mem_probe u link, not_download_mem_probe u link⟩
  unfold processLink
  split
  case isTrue hpdf =>
    split
    case isTrue hrob =>
      split
      case isTrue hmem =>
        exact crawlInv_parts w maxDepth start samePathOnly s _ _ hprobe rfl
          (fun p hp => hp) rfl rfl h
      case isFalse hmem =>
        constructor
        · intro u
          simp only [countE_append, countE_probe_fetch, countE]
          simpa using h.fetch_le_one u
        · intro u hu
          simp only [countE_append, countE_probe_fetch, countE]
          simpa using h.fetch_unseen u hu
        · intro u hu
          simp only [List.append_assoc, List.mem_append, List.mem_singleton] at hu
          rcases hu with hm | hm | hm
          · exact h.fetch_scope u hm
          · exact absurd hm (not_fetch_mem_probe u link)
          · exact absurd hm (by simp)
        · intro u
          simp only [countE_append, countE_probe_download, countE, countE_nil]
          by_cases hul : Event.download link = Event.download u
          · have hul' : link = u := by injection hul
            subst hul'
            rw [if_pos rfl]
            have := h.dl_unfound link hmem
            omega
          · rw [if_neg hul]
            simpa using h.dl_le_one u
        · intro u hu
          simp only [List.mem_append, List.mem_singleton, not_or] at hu
          obtain ⟨hu1, hu2⟩ := hu
          simp only [countE_append, countE_probe_download, countE, countE_nil]
          rw [if_neg (fun hc => hu2 (by injection hc with hc; rw [hc]))]
          simpa using h.dl_unfound u hu1
        · intro u hu
          rcases List.mem_append.mp hu with hm | hm
          · exact h.found_robots u hm
          · rw [List.mem_singleton.mp hm]; exact hrob
        · intro p hp; exact h.queued_ok p hp
        · intro u hu; exact h.seen_ok u hu
    case isFalse hrob =>
      exact crawlInv_parts w maxDepth start samePathOnly s _ _ hprobe rfl
        (fun p hp => hp) rfl rfl h
  case isFalse hpdf =>
    split
    case isTrue hdep =>
      split
      case isTrue hscope =>
        split
        case isTrue hseen =>
          exact crawlInv_parts w maxDepth start samePathOnly s _ _ hprobe rfl
            (fun p hp => hp) rfl rfl h
        case isFalse hseen =>
          have hsite : is_same_site link start = true := (Bool.and_eq_true ..).mp hscope |>.1
          have hunder : samePathOnly = true → is_under_base_path link start = true := by
            intro hspo
            have hor := (Bool.and_eq_true ..).mp hscope |>.2
            rcases Bool.or_eq_true .. |>.mp hor with hno | hyes
            · rw [hspo] at hno; simp at hno
            · exact hyes
          constructor
          · intro u
            simp only [countE_append, countE_probe_fetch]
            simpa using h.fetch_le_one u
          · intro u hu
            simp only [countE_append, countE_probe_fetch]
            simpa using h.fetch_unseen u hu
          · intro u hu
            rcases List.mem_append.mp hu with hm | hm
            · exact h.fetch_scope u hm
            · exact absurd hm (not_fetch_mem_probe u link)
          · intro u
            simp only [countE_append, countE_probe_download]
            simpa using h.dl_le_one u
          · intro u hu
            simp only [countE_append, countE_probe_download]
            simpa using h.dl_unfound u hu
          · intro u hu; exact h.found_robots u hu
          · intro p hp
            rcases List.mem_append.mp hp with hm | hm
            · exact h.queued_ok p hm
            · rw [List.mem_singleton.mp hm]
              exact Or.inr ⟨by omega, by omega, hsite, hunder⟩
          · intro u hu; exact h.seen_ok u hu
      case isFalse hscope =>
        exact crawlInv_parts w maxDepth start samePathOnly s _ _ hprobe rfl
          (fun p hp => hp) rfl rfl h
    case isFalse hdep =>
      exact crawlInv_parts w maxDepth start samePathOnly s _ _ hprobe rfl
        (fun p hp => hp) rfl rfl h

/-- The link loop preserves the invariant. -/
theorem crawlInv_foldl (w : World) (maxDepth : Nat) (start : Url) (samePathOnly : Bool)
    (depth : Nat) (links : List Url) :
    ∀ s : CrawlState, CrawlInv w maxDepth start samePathOnly s →
      CrawlInv w maxDepth start samePathOnly
        (links.foldl (processLink w maxDepth start samePathOnly depth) s) := by
  induction links with
  | nil => intro s h; exact h
  | cons l ls ih =>
    intro s h
    exact ih _ (crawlInv_processLink w maxDepth start samePathOnly depth s l h)

/-- One iteration of the while loop preserves the invariant. -/
theorem crawlInv_crawlStep (w : World) (maxDepth : Nat) (start : Url)
    (samePathOnly : Bool) (s : CrawlState)
    (h : CrawlInv w maxDepth start samePathOnly s) :
    CrawlInv w maxDepth start samePathOnly
      (crawlStep w maxDepth start samePathOnly s) := by
  obtain ⟨seen, queued, found, dls, cls, ev⟩ := s
  rcases queued with - | ⟨⟨url, depth⟩, rest⟩
  · exact h
  · have hrest : ∀ p ∈ rest, p ∈ ((url, depth) :: rest : List (Url × Nat)) :=
      fun p hp => List.mem_cons_of_mem _ hp
    have hdqE : ∀ u : Url,
        Event.fetchPage u ∉ [Event.dequeue url depth] ∧
        Event.download u ∉ [Event.dequeue url depth] := by
      intro u; constructor <;> simp
    unfold crawlStep
    dsimp only
    split
    next hseen =>
      exact crawlInv_parts w maxDepth start samePathOnly
        ⟨seen, (url, depth) :: rest, found, dls, cls, ev⟩
        ⟨seen, rest, found, dls, cls, ev ++ [Event.dequeue url depth]⟩
        [Event.dequeue url depth] hdqE rfl hrest rfl rfl h
    next hseen =>
      have hhead : ((url, depth) : Url × Nat) ∈ ((url, depth) :: rest : List (Url × Nat)) :=
        List.mem_cons_self _ _
      have hq_ok := h.queued_ok (url, depth) hhead
      have hseen_new : ∀ u ∈ seen ++ [url], u = start ∨
          (1 ≤ maxDepth ∧ is_same_site u start = true ∧
           (samePathOnly = true → is_under_base_path u start = true)) := by
        intro u hu
        rcases List.mem_append.mp hu with hm | hm
        · exact h.seen_ok u hm
        · rw [List.mem_singleton.mp hm]
          rcases hq_ok with ⟨h1, -⟩ | ⟨h1, h2, h3, h4⟩
          · exact Or.inl h1
          · exact Or.inr ⟨by omega, h3, h4⟩
      have base2 : CrawlInv w maxDepth start samePathOnly
          ⟨seen ++ [url], rest, found, dls, cls, ev ++ [Event.dequeue url depth]⟩ := by
        constructor
        · intro u
          simp only [countE_append, countE_eq_zero.mpr (hdqE u).1]
          have hle : countE (Event.fetchPage u) ev ≤ 1 := h.fetch_le_one u
          omega
        · intro u hu
          have hu1 : u ∉ seen := fun hc => hu (List.mem_append.mpr (Or.inl hc))
          simp only [countE_append, countE_eq_zero.mpr (hdqE u).1]
          have h0 : countE (Event.fetchPage u) ev = 0 := h.fetch_unseen u hu1
          omega
        · intro u hu
          rcases List.mem_append.mp hu with hm | hm
          · exact h.fetch_scope u hm
          · exact absurd hm (hdqE u).1
        · intro u
          simp only [countE_append, countE_eq_zero.mpr (hdqE u).2]
          have hle : countE (Event.download u) ev ≤ 1 := h.dl_le_one u
          omega
        · intro u hu
          simp only [countE_append, countE_eq_zero.mpr (hdqE u).2]
          have h0 : countE (Event.download u) ev = 0 := h.dl_unfound u hu
          omega
        · intro u hu; exact h.found_robots u hu
        · intro p hp; exact h.queued_ok p (hrest p hp)
        · exact hseen_new
      split
      next hsite => exact base2
      next hsite =>
        split
        next hpath => exact base2
        next hpath =>
          split
          next hrob => exact base2
          next hrob =>
            have hsite2 : is_same_site url start = true := by
              cases hs : is_same_site url start
              · exact absurd (show (!is_same_site url start) = true by simp [hs]) hsite
              · rfl
            have hpath2 : samePathOnly = true → is_under_base_path url start = true := by
              intro hspo
              cases hu : is_under_base_path url start
              · exact absurd (show (samePathOnly && !is_under_base_path url start) = true by
                  simp [hspo, hu]) hpath
              · rfl
            have hrob2 : w.robots url = true := by
              cases hr : w.robots url
              · exact absurd (show (!w.robots url) = true by simp [hr]) hrob
              · rfl
            have base3 : CrawlInv w maxDepth start samePathOnly
                ⟨seen ++ [url], rest, found, dls, cls,
                 (ev ++ [Event.dequeue url depth]) ++ [Event.fetchPage url]⟩ := by
              constructor
              · intro u
                simp only [countE_append, countE_eq_zero.mpr (hdqE u).1]
                by_cases huu : u = url
                · subst huu
                  have h0 : countE (Event.fetchPage u) ev = 0 := h.fetch_unseen u hseen
                  have h1 : countE (Event.fetchPage u) [Event.fetchPage u] = 1 := by
                    simp [countE]
                  omega
                · have h1 : countE (Event.fetchPage u) [Event.fetchPage url] = 0 :=
                    countE_eq_zero.mpr (by simp [huu])
                  have hle : countE (Event.fetchPage u) ev ≤ 1 := h.fetch_le_one u
                  omega
              · intro u hu
                have hu1 : u ∉ seen := fun hc => hu (List.mem_append.mpr (Or.inl hc))
                have hu2 : ¬ u = url := fun hc =>
                  hu (List.mem_append.mpr (Or.inr (by rw [hc]; exact List.mem_singleton_self _)))
                simp only [countE_append, countE_eq_zero.mpr (hdqE u).1]
                have h0 : countE (Event.fetchPage u) ev = 0 := h.fetch_unseen u hu1
                have h1 : countE (Event.fetchPage u) [Event.fetchPage url] = 0 :=
                  countE_eq_zero.mpr (by simp [hu2])
                omega
              · intro u hu
                simp only [List.mem_append, List.mem_singleton] at hu
                rcases hu with (hm | hm) | hm
                · exact h.fetch_scope u hm
                · exact absurd hm (by simp)
                · have huu : u = url := by
                    have := Event.fetchPage.inj hm
                    exact this
                  subst huu
                  exact ⟨hsite2, hpath2, hrob2⟩
              · intro u
                simp only [countE_append, countE_eq_zero.mpr (hdqE u).2]
                have h1 : countE (Event.download u) [Event.fetchPage url] = 0 :=
                  countE_eq_zero.mpr (by simp)
                have hle : countE (Event.download u) ev ≤ 1 := h.dl_le_one u
                omega
              · intro u hu
                simp only [countE_append, countE_eq_zero.mpr (hdqE u).2]
                have h0 : countE (Event.download u) ev = 0 := h.dl_unfound u hu
                have h1 : countE (Event.download u) [Event.fetchPage url] = 0 :=
                  countE_eq_zero.mpr (by simp)
                omega
              · intro u hu; exact h.found_robots u hu
              · intro p hp; exact h.queued_ok p (hrest p hp)
              · exact hseen_new
            cases hp : w.pages url with
            | none => exact base3
            | some links =>
              exact crawlInv_foldl w maxDepth start samePathOnly depth links _ base3

/-- The initial state satisfies the invariant. -/
theorem crawlInv_init (w : World) (maxDepth : Nat) (start : Url) (samePathOnly : Bool) :
    CrawlInv w maxDepth start samePathOnly (initState start) := by
  constructor
  · intro u; simp [initState, countE_nil]
  · intro u _; simp [initState, countE_nil]
  · intro u hu; simp [initState] at hu
  · intro u; simp [initState, countE_nil]
  · intro u _; simp [initState, countE_nil]
  · intro u hu; simp [initState] at hu
  · intro p hp
    simp only [initState, List.mem_singleton] at hp
    rw [hp]
    exact Or.inl ⟨rfl, rfl⟩
  · intro u hu; simp [initState] at hu

/-- Every state reached by the fueled loop satisfies the invariant. -/
theorem crawlInv_run (w : World) (maxDepth : Nat) (start : Url) (samePathOnly : Bool) :
    ∀ (fuel : Nat) (s : CrawlState), CrawlInv w maxDepth start samePathOnly s →
      CrawlInv w maxDepth start samePathOnly
        (crawlRun w maxDepth start samePathOnly fuel s) := by
  intro fuel
  induction fuel with
  | zero => intro s h; exact h
  | succ f ih =>
    intro s h
    unfold crawlRun
    rcases hq : s.queued with - | ⟨p, rest⟩
    · exact h
    · exact ih _ (crawlInv_crawlStep w maxDepth start samePathOnly s h)

/-- The invariant at the end of any crawl_and_download run. -/
theorem crawlInv_crawl (w : World) (start : Url) (maxDepth : Nat) (samePathOnly : Bool)
    (fuel : Nat) :
    CrawlInv w maxDepth start samePathOnly
      (crawl_and_download w start maxDepth samePathOnly fuel) :=
  crawlInv_run w maxDepth start samePathOnly fuel _
    (crawlInv_init w maxDepth start samePathOnly)

/-- C4: over every environment, seed, depth bound, scope flag and fuel,
the document GET for any URL is issued at most once per crawl run:
membership in found_pdfs gates every download, however many pages link
the document and at whatever depths it is discovered. -/
theorem download_at_most_once (w : World) (start : Url) (maxDepth : Nat)
    (samePathOnly : Bool) (fuel : Nat) (u : Url) :
    countE (Event.download u)
      (crawl_and_download w start maxDepth samePathOnly fuel).events ≤ 1 :=
  (crawlInv_crawl w start maxDepth samePathOnly fuel).dl_le_one u

/-- C1 amended: page fetches are gated by the host scope, the path
scope (when same-path-only is set) and the exclusion policy, and
document downloads are gated by the exclusion policy; but document
candidates get no scope check, and the HEAD probe of the document
detector runs on every non-.pdf link before any check, so an
external-host link is probed and an external-host document that the
policy allows is downloaded. -/
theorem scope_policy_gating :
    (∀ (w : World) (start : Url) (maxDepth : Nat) (samePathOnly : Bool) (fuel : Nat) (u : Url),
      Event.fetchPage u ∈ (crawl_and_download w start maxDepth samePathOnly fuel).events →
        is_same_site u start = true ∧
        (samePathOnly = true → is_under_base_path u start = true) ∧
        w.robots u = true) ∧
    (∀ (w : World) (start : Url) (maxDepth : Nat) (samePathOnly : Bool) (fuel : Nat) (u : Url),
      Event.download u ∈ (crawl_and_download w start maxDepth samePathOnly fuel).events →
        w.robots u = true) ∧
    Event.probe uExt ∈ (crawl_and_download e2eWorld uSeed 2 true 10).events ∧
    Event.download uExtPdf ∈ (crawl_and_download e2eWorld uSeed 2 true 10).events ∧
    is_same_site uExtPdf uSeed = false := by
  refine ⟨?_, ?_, by decide, by decide, by decide⟩
  · intro w start maxDepth samePathOnly fuel u hu
    exact (crawlInv_crawl w start maxDepth samePathOnly fuel).fetch_scope u hu
  · intro w start maxDepth samePathOnly fuel u hu
    have inv := crawlInv_crawl w start maxDepth samePathOnly fuel
    have hfound : u ∈ (crawl_and_download w start maxDepth samePathOnly fuel).foundPdfs := by
      by_contra hc
      exact (countE_eq_zero.mp (inv.dl_unfound u hc)) hu
    exact inv.found_robots u hfound

/-- Witness for scope_policy_gating: the in-scope second page of the
end-to-end world is fetched, and the gating conditions hold for it. -/
theorem scope_policy_gating_witness :
    Event.fetchPage uPage2 ∈ (crawl_and_download e2eWorld uSeed 2 true 10).events ∧
    (is_same_site uPage2 uSeed = true ∧
     (true = true → is_under_base_path uPage2 uSeed = true) ∧
     e2eWorld.robots uPage2 = true) :=
  ⟨by decide, scope_policy_gating.1 e2eWorld uSeed 2 true 10 uPage2 (by decide)⟩

/-- C1 counterexample: in the end-to-end scenario with depth 2 and
same-path-only set, the external-host link is HEAD-probed (a network
operation on that link) before any scope or policy check. -/
theorem external_link_probed_cex :
    is_same_site uExt uSeed = false ∧
    Event.probe uExt ∈ (crawl_and_download e2eWorld uSeed 2 true 10).events := by
  decide

/-- C3 amended: a URL the exclusion policy disallows is never fetched
as a page, never downloaded, and never counted among the documents
found; but when it is dequeued as a page candidate it is added to the
visited set before the policy check, so it is included in the
pages-visited count of the summary. -/
theorem robots_denied_not_fetched :
    (∀ (w : World) (start : Url) (maxDepth : Nat) (samePathOnly : Bool) (fuel : Nat) (u : Url),
      w.robots u = false →
        Event.fetchPage u ∉ (crawl_and_download w start maxDepth samePathOnly fuel).events ∧
        Event.download u ∉ (crawl_and_download w start maxDepth samePathOnly fuel).events ∧
        u ∉ (crawl_and_download w start maxDepth samePathOnly fuel).foundPdfs) ∧
    (deniedWorld.robots uPage2 = false ∧
     uPage2 ∈ (crawl_and_download deniedWorld uSeed 2 true 10).seen ∧
     (crawl_and_download deniedWorld uSeed 2 true 10).seen.length = 2) := by
  refine ⟨?_, by decide⟩
  intro w start maxDepth samePathOnly fuel u hu
  have inv := crawlInv_crawl w start maxDepth samePathOnly fuel
  have hnf : u ∉ (crawl_and_download w start maxDepth samePathOnly fuel).foundPdfs := by
    intro hc
    exact absurd (inv.found_robots u hc) (by simp [hu])
  refine ⟨?_, ?_, hnf⟩
  · intro hmem
    exact absurd (inv.fetch_scope u hmem).2.2 (by simp [hu])
  · intro hmem
    exact (countE_eq_zero.mp (inv.dl_unfound u hnf)) hmem

/-- Witness for robots_denied_not_fetched: the policy-denied page of
deniedWorld is neither fetched nor downloaded nor found. -/
theorem robots_denied_not_fetched_witness :
    deniedWorld.robots uPage2 = false ∧
    (Event.fetchPage uPage2 ∉ (crawl_and_download deniedWorld uSeed 2 true 10).events ∧
     Event.download uPage2 ∉ (crawl_and_download deniedWorld uSeed 2 true 10).events ∧
     uPage2 ∉ (crawl_and_download deniedWorld uSeed 2 true 10).foundPdfs) :=
  ⟨by decide, robots_denied_not_fetched.1 deniedWorld uSeed 2 true 10 uPage2 (by decide)⟩

/-- C3 counterexample: the policy-denied URL is dequeued, never
fetched, yet lands in the visited set, whose size is the pages-visited
figure printed by the summary; so it is counted among visited pages. -/
theorem robots_denied_counted_cex :
    deniedWorld.robots uPage2 = false ∧
    uPage2 ∈ (crawl_and_download deniedWorld uSeed 2 true 10).seen ∧
    Event.fetchPage uPage2 ∉ (crawl_and_download deniedWorld uSeed 2 true 10).events := by
  decide

/-- C5 amended: no URL is page-fetched (processed) more than once in
any run, and in the two-page cycle scenario each page is dequeued and
fetched exactly once and the crawl terminates with an empty frontier;
but a URL that several pages link before its first dequeue can be
dequeued more than once, the duplicates being skipped by the visited
set. -/
theorem fetch_once_and_cycle_terminates :
    (∀ (w : World) (start : Url) (maxDepth : Nat) (samePathOnly : Bool) (fuel : Nat) (u : Url),
      countE (Event.fetchPage u)
        (crawl_and_download w start maxDepth samePathOnly fuel).events ≤ 1) ∧
    ((crawl_and_download cycleWorld uSeed 2 true 10).queued = [] ∧
     countE (Event.fetchPage uSeed) (crawl_and_download cycleWorld uSeed 2 true 10).events = 1 ∧
     countE (Event.fetchPage uPage2) (crawl_and_download cycleWorld uSeed 2 true 10).events = 1 ∧
     countE (Event.dequeue uSeed 0) (crawl_and_download cycleWorld uSeed 2 true 10).events = 1 ∧
     countE (Event.dequeue uPage2 1) (crawl_and_download cycleWorld uSeed 2 true 10).events = 1) := by
  refine ⟨?_, by decide⟩
  intro w start maxDepth samePathOnly fuel u
  exact (crawlInv_crawl w start maxDepth samePathOnly fuel).fetch_le_one u

/-- C5 counterexample: in the diamond graph (seed links A and B, both
link C) the URL C is dequeued from the frontier twice. -/
theorem dequeued_twice_cex :
    countE (Event.dequeue uC 2) (crawl_and_download diamondWorld uSeed 2 true 10).events = 2 := by
  decide

/-- C7: with maximum depth 0 the only page ever fetched is the seed and
the frontier never holds anything but the seed entry, while documents
linked from the seed are still downloaded (no depth check on document
links): in the end-to-end world at depth 0 the seed-linked document is
downloaded, the second page is never fetched, and the crawl drains the
frontier. -/
theorem depth_zero_only_seed :
    (∀ (w : World) (start : Url) (samePathOnly : Bool) (fuel : Nat) (u : Url),
      Event.fetchPage u ∈ (crawl_and_download w start 0 samePathOnly fuel).events →
        u = start) ∧
    (∀ (w : World) (start : Url) (samePathOnly : Bool) (fuel : Nat) (p : Url × Nat),
      p ∈ (crawl_and_download w start 0 samePathOnly fuel).queued → p = (start, 0)) ∧
    (Event.download uDocA ∈ (crawl_and_download e2eWorld uSeed 0 true 10).events ∧
     Event.fetchPage uPage2 ∉ (crawl_and_download e2eWorld uSeed 0 true 10).events ∧
     (crawl_and_download e2eWorld uSeed 0 true 10).queued = []) := by
  refine ⟨?_, ?_, by decide⟩
  · intro w start samePathOnly fuel u hu
    have inv := crawlInv_crawl w start 0 samePathOnly fuel
    have hmem : u ∈ (crawl_and_download w start 0 samePathOnly fuel).seen := by
      by_contra hc
      exact (countE_eq_zero.mp (inv.fetch_unseen u hc)) hu
    rcases inv.seen_ok u hmem with h1 | ⟨h1, -⟩
    · exact h1
    · omega
  · intro w start samePathOnly fuel p hp
    have inv := crawlInv_crawl w start 0 samePathOnly fuel
    rcases inv.queued_ok p hp with ⟨h1, h2⟩ | ⟨h1, h2, -⟩
    · obtain ⟨a, b⟩ := p
      have ha : a = start := h1
      have hb : b = 0 := h2
      rw [ha, hb]
    · omega

/-- Witness for depth_zero_only_seed: the seed page itself is fetched
in the depth-0 run, and the theorem identifies it with the seed. -/
theorem depth_zero_only_seed_witness :
    Event.fetchPage uSeed ∈ (crawl_and_download e2eWorld uSeed 0 true 10).events ∧
    uSeed = uSeed :=
  ⟨by decide, depth_zero_only_seed.1 e2eWorld uSeed true 10 uSeed (by decide)⟩

/-- C10: in every state reachable by the crawl loop, a frontier entry
is either the seed at depth 0 or carries a depth between 1 and the
configured maximum, a URL on the same network authority as the start
URL, and, when same-path-only is set, a path that starts with the path
of the start URL. -/
theorem frontier_invariant (w : World) (start : Url) (maxDepth : Nat)
    (samePathOnly : Bool) (fuel : Nat) (p : Url × Nat)
    (hp : p ∈ (crawl_and_download w start maxDepth samePathOnly fuel).queued) :
    p = (start, 0) ∨
    (1 ≤ p.2 ∧ p.2 ≤ maxDepth ∧ is_same_site p.1 start = true ∧
     (samePathOnly = true → pyStartswith p.1.path start.path = true)) := by
  have inv := crawlInv_crawl w start maxDepth samePathOnly fuel
  rcases inv.queued_ok p hp with ⟨h1, h2⟩ | ⟨h1, h2, h3, h4⟩
  · left
    obtain ⟨a, b⟩ := p
    have ha : a = start := h1
    have hb : b = 0 := h2
    rw [ha, hb]
  · right
    refine ⟨h1, h2, h3, fun hspo => ?_⟩
    have hunder := h4 hspo
    unfold is_under_base_path at hunder
    exact ((Bool.and_eq_true ..).mp hunder).2

/-- Witness for frontier_invariant: after one loop iteration of the
end-to-end world the frontier holds the second page at depth 1, which
satisfies the stated bounds and scope facts. -/
theorem frontier_invariant_witness :
    (uPage2, 1) ∈ (crawl_and_download e2eWorld uSeed 2 true 1).queued ∧
    ((uPage2, 1) = (uSeed, 0) ∨
     (1 ≤ (uPage2, (1 : Nat)).2 ∧ (uPage2, (1 : Nat)).2 ≤ 2 ∧
      is_same_site (uPage2, (1 : Nat)).1 uSeed = true ∧
      (true = true → pyStartswith (uPage2, (1 : Nat)).1.path uSeed.path = true))) :=
  ⟨by decide, frontier_invariant e2eWorld uSeed 2 true 1 (uPage2, 1) (by decide)⟩

/-- Witness for sanitize_filename_charwise: the charwise form at a
concrete name, and an allow-listed character that is kept unchanged. -/
theorem sanitize_filename_charwise_witness :
    sanitize_filename "a" = ⟨("a".data.map substChar).drop ("a".data.length - 180)⟩ ∧
    pyAllowChar 'a' = true ∧ substChar 'a' = 'a' :=
  ⟨sanitize_filename_charwise.1 "a", by decide,
   sanitize_filename_charwise.2.2.1 'a' (by decide)⟩
